import Mathlib

/-!
Verification of the `flow` workflow-composition library (Go).

This file shallowly embeds the library's execution engines and proves the
specification claims about them.  Go `error` values are modelled by
`Option GoError` (with `none` playing the role of `nil`), steps are
modelled as pure state transformers `σ → σ × Option GoError`, and the
`context.Context` cancellation channel is modelled explicitly where a
claim depends on it.
-/

namespace Flow

/--
Model of Go error values as used by the library.

`base n` stands for a distinct error created with `errors.New` (two
different ids model two different error values); `canceled` is
`context.Canceled`; `exhausted` is the package sentinel `flow.ErrExhausted`;
`indexed` is `*flow.IndexedError` (field `Index`, wrapped `Err`);
`named` is `flow.NamedError`; `joined` is the aggregate produced by
`errors.Join` (which keeps the ordered slice of non-nil constituents).
-/
inductive GoError where
  | base : Nat → GoError
  | canceled : GoError
  | exhausted : GoError
  | indexed : Int → GoError → GoError
  | named : String → GoError → GoError
  | joined : List GoError → GoError
deriving Repr

mutual

/-- Model of Go `==` on error values (identity of `errors.New` values is
modelled by the id in `base`). -/
def geq : GoError → GoError → Bool
  | .base n, .base m => n == m
  | .canceled, .canceled => true
  | .exhausted, .exhausted => true
  | .indexed i e, .indexed j f => i == j && geq e f
  | .named a e, .named b f => a == b && geq e f
  | .joined es, .joined fs => geqList es fs
  | _, _ => false

/-- Elementwise Go `==` on slices of errors. -/
def geqList : List GoError → List GoError → Bool
  | [], [] => true
  | e :: es, f :: fs => geq e f && geqList es fs
  | _, _ => false

end

mutual

/--
Model of `errors.Is(e, target)`: equality at the current node, otherwise
unwrap (`IndexedError.Unwrap`/`NamedError.Unwrap` yield the wrapped error;
`errors.Join`'s result unwraps to the slice of constituents, each of which
is searched).
-/
def errIs (e target : GoError) : Bool :=
  geq e target ||
    match e with
    | .indexed _ inner => errIs inner target
    | .named _ inner => errIs inner target
    | .joined es => errIsAny es target
    | _ => false

/-- `errors.Is` against each member of a slice of wrapped errors. -/
def errIsAny (es : List GoError) (target : GoError) : Bool :=
  match es with
  | [] => false
  | e :: rest => errIs e target || errIsAny rest target

end

mutual

theorem geq_refl (e : GoError) : geq e e = true := by
  cases e with
  | base n => simp [geq]
  | canceled => simp [geq]
  | exhausted => simp [geq]
  | indexed i f => simp [geq, geq_refl f]
  | named a f => simp [geq, geq_refl f]
  | joined es => simp [geq, geqList_refl es]

theorem geqList_refl (es : List GoError) : geqList es es = true := by
  cases es with
  | nil => simp [geqList]
  | cons e rest => simp [geqList, geq_refl e, geqList_refl rest]

end

theorem errIs_refl (e : GoError) : errIs e e = true := by
  cases e <;> simp [errIs, geq_refl]

theorem errIsAny_of_mem (es : List GoError) (e : GoError) (h : e ∈ es) :
    errIsAny es e = true := by
  induction es with
  | nil => cases h
  | cons x rest ih =>
    rw [errIsAny]
    rcases List.mem_cons.mp h with h1 | h2
    · subst h1
      simp [errIs_refl]
    · simp [ih h2]

/--
Model of `errors.Join(errs...)` applied to a slice of non-nil errors (the
only way the engines call it): `nil` for an empty slice, otherwise a
`joinError` holding the ordered slice.
-/
def errorsJoin (errs : List GoError) : Option GoError :=
  match errs with
  | [] => none
  | _ => some (.joined errs)

/--
A `flow.Step[T]` — `func(context.Context, T) error` — modelled as a pure
transformer of the state it may mutate, paired with its returned error.
The context argument is omitted here: the serial engines pass it through
unchanged and none of the serial claims depend on it.
-/
def Step (σ : Type) : Type := σ → σ × Option GoError

/-- `flow.StepsProvider[T] = Extract[T, []Step[T]]`: may mutate the state
and yields a slice of steps or an error. -/
def StepsProvider (σ : Type) : Type := σ → σ × List (Step σ) × Option GoError

/-- `flow.Options` for the serial engines. -/
structure Options where
  joinErrors : Bool

/--
The loop body of `DoWith`: iterate the steps, collecting errors into
`errs` when `JoinErrors` is set, returning the first error immediately
otherwise; finish with `errors.Join` of the collected errors.
-/
def doLoop (joinErrors : Bool) : List (Step σ) → σ → List GoError → σ × Option GoError
  | [], s, errs => (s, errorsJoin errs)
  | step :: rest, s, errs =>
    let r := step s
    match r.2 with
    | none => doLoop joinErrors rest r.1 errs
    | some err =>
      if joinErrors then doLoop joinErrors rest r.1 (errs ++ [err])
      else (r.1, some err)

/-- `flow.DoWith(opts, steps...)`. -/
def DoWith (opts : Options) (steps : List (Step σ)) : Step σ :=
  fun s => doLoop opts.joinErrors steps s []

/-- `flow.Do(steps...) = DoWith(Options{}, steps...)`. -/
def Do (steps : List (Step σ)) : Step σ :=
  DoWith ⟨false⟩ steps

/--
The inner loop of `InSerialWith` over one provider's steps.  It shares the
`errs` accumulator with the outer loop; `Sum.inr` models the early
`return err` taken when a step fails and `JoinErrors` is off.
-/
def serialStepsLoop (joinErrors : Bool) :
    List (Step σ) → σ → List GoError → (σ × List GoError) ⊕ (σ × GoError)
  | [], s, errs => .inl (s, errs)
  | step :: rest, s, errs =>
    let r := step s
    match r.2 with
    | none => serialStepsLoop joinErrors rest r.1 errs
    | some err =>
      if joinErrors then serialStepsLoop joinErrors rest r.1 (errs ++ [err])
      else .inr (r.1, err)

/--
The outer loop of `InSerialWith` over the providers: a provider error is
returned immediately (or collected, with `continue`) and a successful
provider's steps are run by `serialStepsLoop`.
-/
def serialLoop (joinErrors : Bool) :
    List (StepsProvider σ) → σ → List GoError → σ × Option GoError
  | [], s, errs => (s, errorsJoin errs)
  | provider :: rest, s, errs =>
    let r := provider s
    match r.2.2 with
    | some err =>
      if joinErrors then serialLoop joinErrors rest r.1 (errs ++ [err])
      else (r.1, some err)
    | none =>
      match serialStepsLoop joinErrors r.2.1 r.1 errs with
      | .inl (s2, errs2) => serialLoop joinErrors rest s2 errs2
      | .inr (s2, err) => (s2, some err)

/-- `flow.InSerialWith(opts, providers...)`. -/
def InSerialWith (opts : Options) (providers : List (StepsProvider σ)) : Step σ :=
  fun s => serialLoop opts.joinErrors providers s []

/-- `flow.InSerial(providers...) = InSerialWith(Options{}, providers...)`. -/
def InSerial (providers : List (StepsProvider σ)) : Step σ :=
  InSerialWith ⟨false⟩ providers

/-- `flow.Steps(steps...)`: lift a static slice of steps into a provider. -/
def Steps (steps : List (Step σ)) : StepsProvider σ :=
  fun s => (s, steps, none)

/-- With fail-fast options, a successfully completed prefix is simply run
through, and the remaining steps continue from its final state. -/
theorem doLoop_append_ok (pre rest : List (Step σ)) :
    ∀ s s' : σ, doLoop false pre s [] = (s', none) →
      doLoop false (pre ++ rest) s [] = doLoop false rest s' [] := by
  induction pre with
  | nil =>
    intro s s' h
    simp [doLoop, errorsJoin] at h
    simp [h]
  | cons st pre' ih =>
    intro s s' h
    rw [doLoop] at h
    rw [List.cons_append, doLoop]
    cases he : (st s).2 with
    | none =>
      simp only [he] at h ⊢
      exact ih _ _ h
    | some err =>
      simp only [he] at h
      simp at h

/-- Helper steps used in concrete scenarios: add `n` to an integer
counter state (the test suite's `Increment`). -/
def incr (n : Int) : Step Int :=
  fun c => (c + n, none)

/-- A step that fails with the given error without touching the state. -/
def failWith (e : GoError) : Step Int :=
  fun c => (c, some e)

/--
Claim C1: running steps serially under the default fail-fast policy via
`Do`/`DoWith`, if step `k` is the first step to return a non-nil error
(`pre` runs cleanly to state `s'` and `stepK` then fails with `e`), then
the steps after `k` (`post`) are never invoked — the result does not
depend on them and the state is the one produced by step `k` — and the
call returns exactly `e`, unwrapped.
-/
theorem serial_failFast_first_error (pre post : List (Step σ)) (stepK : Step σ)
    (s s' : σ) (e : GoError)
    (hpre : DoWith ⟨false⟩ pre s = (s', none))
    (hk : (stepK s').2 = some e) :
    DoWith ⟨false⟩ (pre ++ stepK :: post) s = ((stepK s').1, some e) ∧
      Do (pre ++ stepK :: post) s = ((stepK s').1, some e) := by
  have hrun : doLoop false (pre ++ stepK :: post) s [] = ((stepK s').1, some e) := by
    rw [doLoop_append_ok pre (stepK :: post) s s' hpre]
    rw [doLoop]
    simp only [hk]
    simp
  exact ⟨hrun, hrun⟩

/-- Witness for C1: with `pre = [incr 1]`, a failing middle step and a
skipped `post = [incr 5]`, the run stops at the failure and returns its
error unwrapped. -/
theorem serial_failFast_first_error_witness :
    DoWith ⟨false⟩ [incr 1, failWith (.base 3), incr 5] 0 = (1, some (.base 3)) := by
  have h := serial_failFast_first_error [incr 1] [incr 5] (failWith (.base 3))
    0 1 (.base 3) rfl rfl
  exact h.1

/--
Specification-side description of "every step executes exactly once, in
order": apply each step once to the running state and collect the non-nil
errors in encounter order.  Used to compare the join-policy engines
against the spec's words.
-/
def runAllSteps : List (Step σ) → σ → σ × List GoError
  | [], s => (s, [])
  | step :: rest, s =>
    let r := step s
    let r2 := runAllSteps rest r.1
    (r2.1, r.2.toList ++ r2.2)

/--
Specification-side description of `InSerialWith` under the join policy:
every provider is consulted exactly once; a failing provider contributes
its error and its steps are skipped; a successful provider's steps each
execute exactly once, contributing their errors in encounter order.
-/
def runAllProviders : List (StepsProvider σ) → σ → σ × List GoError
  | [], s => (s, [])
  | provider :: rest, s =>
    let r := provider s
    match r.2.2 with
    | some err =>
      let r2 := runAllProviders rest r.1
      (r2.1, err :: r2.2)
    | none =>
      let r1 := runAllSteps r.2.1 r.1
      let r2 := runAllProviders rest r1.1
      (r2.1, r1.2 ++ r2.2)

theorem doLoop_join_eq (steps : List (Step σ)) :
    ∀ (s : σ) (errs : List GoError),
      doLoop true steps s errs =
        ((runAllSteps steps s).1, errorsJoin (errs ++ (runAllSteps steps s).2)) := by
  induction steps with
  | nil => intro s errs; simp [doLoop, runAllSteps]
  | cons st rest ih =>
    intro s errs
    rw [doLoop, runAllSteps]
    cases he : (st s).2 with
    | none => simp only [he, Option.toList]; simp [ih]
    | some err =>
      simp only [he, Option.toList]
      simp [ih]

theorem serialStepsLoop_join_eq (steps : List (Step σ)) :
    ∀ (s : σ) (errs : List GoError),
      serialStepsLoop true steps s errs =
        .inl ((runAllSteps steps s).1, errs ++ (runAllSteps steps s).2) := by
  induction steps with
  | nil => intro s errs; simp [serialStepsLoop, runAllSteps]
  | cons st rest ih =>
    intro s errs
    rw [serialStepsLoop, runAllSteps]
    cases he : (st s).2 with
    | none => simp only [he, Option.toList]; simp [ih]
    | some err =>
      simp only [he, Option.toList]
      simp [ih]

theorem serialLoop_join_eq (providers : List (StepsProvider σ)) :
    ∀ (s : σ) (errs : List GoError),
      serialLoop true providers s errs =
        ((runAllProviders providers s).1,
          errorsJoin (errs ++ (runAllProviders providers s).2)) := by
  induction providers with
  | nil => intro s errs; simp [serialLoop, runAllProviders]
  | cons p rest ih =>
    intro s errs
    rw [serialLoop, runAllProviders]
    cases he : (p s).2.2 with
    | none =>
      simp only [he, serialStepsLoop_join_eq]
      simp [ih]
    | some err =>
      simp only [he]
      simp [ih]

/--
Claim C2: under the join policy, `DoWith`/`InSerialWith` execute every
step exactly once in order regardless of failures (their outcome is
exactly the run-them-all semantics `runAllSteps`/`runAllProviders`), the
returned error is the `errors.Join` aggregate of the failing steps'
original errors in encounter order — matched by `errors.Is` against each
of them — and it is nil when no step fails.
-/
theorem serial_join_runs_all :
    (∀ (σ : Type) (steps : List (Step σ)) (s : σ),
      DoWith ⟨true⟩ steps s =
        ((runAllSteps steps s).1, errorsJoin (runAllSteps steps s).2)) ∧
    (∀ (σ : Type) (providers : List (StepsProvider σ)) (s : σ),
      InSerialWith ⟨true⟩ providers s =
        ((runAllProviders providers s).1, errorsJoin (runAllProviders providers s).2)) ∧
    (∀ (errs : List GoError) (e : GoError), e ∈ errs →
      errorsJoin errs = some (.joined errs) ∧ errIs (.joined errs) e = true) ∧
    errorsJoin [] = none := by
  refine ⟨?_, ?_, ?_, rfl⟩
  · intro σ steps s
    rw [DoWith]
    simpa using doLoop_join_eq steps s []
  · intro σ providers s
    rw [InSerialWith]
    simpa using serialLoop_join_eq providers s []
  · intro errs e hmem
    constructor
    · cases errs with
      | nil => cases hmem
      | cons x rest => rfl
    · rw [errIs]
      simp [errIsAny_of_mem errs e hmem]

/--
Witness for C2: a three-step sequence whose last two steps fail yields
the final state of all three increments and a join of both errors, each
matched by `errors.Is`; the same scenario through `InSerialWith` agrees.
-/
theorem serial_join_runs_all_witness :
    DoWith ⟨true⟩ [incr 1, failWith (.base 1), failWith (.base 2)] 0 =
      (1, some (.joined [.base 1, .base 2])) ∧
    InSerialWith ⟨true⟩ [Steps [incr 1, failWith (.base 1), failWith (.base 2)]] 0 =
      (1, some (.joined [.base 1, .base 2])) ∧
    errIs (.joined [.base 1, .base 2]) (.base 1) = true := by
  have h := serial_join_runs_all
  refine ⟨?_, ?_, ?_⟩
  · rw [h.1 Int [incr 1, failWith (.base 1), failWith (.base 2)] 0]
    rfl
  · rw [h.2.1 Int [Steps [incr 1, failWith (.base 1), failWith (.base 2)]] 0]
    rfl
  · exact (h.2.2.1 [.base 1, .base 2] (.base 1) (by simp)).2

/--
`flow.RetryPredicate = func(context.Context, int, error) bool`, in the
pure model a function of the attempt count and the last error.  The
context argument is dropped: the claims settled here never cancel it, and
under a never-cancelled context the backoff predicates' waits always
elapse (returning true).
-/
def RetryPredicate : Type := Nat → GoError → Bool

/-- `flow.UpTo(maxAttempts)`: approve while `attempts < maxAttempts`. -/
def UpTo (maxAttempts : Int) : RetryPredicate :=
  fun attempts _ => decide ((attempts : Int) < maxAttempts)

/-- `flow.OnlyIf(check)`: approve exactly when `check` accepts the error. -/
def OnlyIf (check : GoError → Bool) : RetryPredicate :=
  fun _ err => check err

/-- The predicate loop inside `Retry`: evaluate predicates left to right,
stopping at the first disapproval. -/
def allApprove (preds : List RetryPredicate) (attempts : Nat) (err : GoError) : Bool :=
  match preds with
  | [] => true
  | p :: rest => if p attempts err then allApprove rest attempts err else false

/--
The retry loop of `flow.Retry`: run the step; on success return nil; on
failure increment `attempts` and retry only if every predicate approves,
otherwise return the step's last error.  Go's `for {}` is unbounded, so
the embedding carries `fuel` bounding the number of attempts; `none`
means the fuel ran out before the loop returned.
-/
def retryLoop (step : Step σ) (preds : List RetryPredicate) :
    Nat → Nat → σ → Option (σ × Option GoError)
  | 0, _, _ => none
  | fuel + 1, attempts, s =>
    let r := step s
    match r.2 with
    | none => some (r.1, none)
    | some err =>
      if allApprove preds (attempts + 1) err then
        retryLoop step preds fuel (attempts + 1) r.1
      else
        some (r.1, some err)

/--
`flow.Retry(step, predicates...)`: run `retryLoop` with attempt counter
starting at 0.  When no predicates are supplied the source substitutes
`UpTo(3)` and `ExponentialBackoff(100ms, WithFullJitter())`; under a
never-cancelled context the backoff wait always elapses, i.e. its pure
content is the always-approving predicate.
-/
def Retry (step : Step σ) (preds : List RetryPredicate) (fuel : Nat) (s : σ) :
    Option (σ × Option GoError) :=
  retryLoop step (if preds.isEmpty then [UpTo 3, fun _ _ => true] else preds) fuel 0 s

/-- The test suite's `FailUntilCount(threshold)`: increment the counter
and fail while it is below the threshold. -/
def FailUntilCount (threshold : Int) : Step Int :=
  fun c =>
    let current := c + 1
    (current, if current < threshold then some (.base 99) else none)

/-- A step that increments its counter and always fails (the counter
counts executions). -/
def alwaysFailCount : Step Int :=
  fun c => (c + 1, some (.base 7))

theorem retryLoop_error_from_step (step : Step σ) (preds : List RetryPredicate) :
    ∀ (fuel attempts : Nat) (s s' : σ) (e : GoError),
      retryLoop step preds fuel attempts s = some (s', some e) →
      ∃ (s₀ : σ) (k : Nat), step s₀ = (s', some e) ∧ allApprove preds k e = false := by
  intro fuel
  induction fuel with
  | zero => intro attempts s s' e h; simp [retryLoop] at h
  | succ fuel ih =>
    intro attempts s s' e h
    rw [retryLoop] at h
    cases he : (step s).2 with
    | none => simp only [he] at h; simp at h
    | some err =>
      simp only [he] at h
      by_cases hap : allApprove preds (attempts + 1) err = true
      · rw [if_pos hap] at h
        exact ih _ _ _ _ h
      · rw [if_neg hap] at h
        simp only [Option.some.injEq, Prod.mk.injEq] at h
        refine ⟨s, attempts + 1, ?_, ?_⟩
        · have : err = e := by
            have := h.2
            simpa using this
          rw [← h.1, ← this, ← he]
        · have : err = e := by
            have := h.2
            simpa using this
          rw [← this]
          simpa using hap

/-- On an always-failing counting step, `UpTo n` with `att + r = n` and
`r ≥ 1` remaining approvals runs the step exactly `r` more times. -/
theorem upTo_alwaysFail_aux (r : Nat) :
    ∀ (att : Nat) (c : Int) (n : Nat) (fuel : Nat),
      1 ≤ r → att + r = n → r ≤ fuel →
      retryLoop alwaysFailCount [UpTo (n : Int)] fuel att c =
        some (c + (r : Int), some (.base 7)) := by
  induction r with
  | zero => intro att c n fuel h1; omega
  | succ r ih =>
    intro att c n fuel h1 hsum hfuel
    obtain ⟨fuel', rfl⟩ : ∃ f, fuel = f + 1 := ⟨fuel - 1, by omega⟩
    rw [retryLoop]
    show (match (alwaysFailCount c).2 with
      | none => some ((alwaysFailCount c).1, none)
      | some err =>
        if allApprove [UpTo (n : Int)] (att + 1) err then
          retryLoop alwaysFailCount [UpTo (n : Int)] fuel' (att + 1) (alwaysFailCount c).1
        else some ((alwaysFailCount c).1, some err)) = _
    cases hr : r with
    | zero =>
      have happ : allApprove [UpTo (n : Int)] (att + 1) (.base 7) = false := by
        simp [allApprove, UpTo]
        omega
      simp [alwaysFailCount, happ]
    | succ r' =>
      have happ : allApprove [UpTo (n : Int)] (att + 1) (.base 7) = true := by
        simp [allApprove, UpTo]
        omega
      simp only [alwaysFailCount, happ, if_true]
      rw [ih (att + 1) (c + 1) n fuel' (by omega) (by omega) (by omega)]
      congr 1
      rw [Prod.mk.injEq]
      refine ⟨by omega, rfl⟩

/--
Counterexample to claim C4 as stated: its "with `UpTo(n)` on an
always-failing step, the step executes exactly `n` times" fails at
`n = 0` — `Retry(step, UpTo(0))` still executes the step once (the
counter reaches 1, not 0), because the step always runs before any
predicate is consulted.
-/
theorem retry_upTo_zero_counterexample :
    Retry alwaysFailCount [UpTo 0] 5 0 = some (1, some (.base 7)) ∧
      ¬ ((1 : Int) = 0) := by
  constructor
  · rfl
  · simp

/--
Claim C4 (amended: the exactly-`n`-executions reading requires `n ≥ 1`;
for `n ≤ 1` the step still executes once, see C10): `Retry` evaluates the
predicates left to right after each failure and all must approve for
another attempt; whenever it returns an error, that error is the failing
step's own error — produced by an actual invocation of the step, with
some predicate having disapproved — never a retry-exhausted sentinel;
with `UpTo n` (`n ≥ 1`) on an always-failing step the step executes
exactly `n` times; and `Retry(FailUntilCount(3), UpTo(5))` succeeds with
exactly 3 executions.
-/
theorem retry_predicates_amended :
    (∀ (σ : Type) (step : Step σ) (preds : List RetryPredicate)
        (fuel attempts : Nat) (s s' : σ) (e : GoError),
      retryLoop step preds fuel attempts s = some (s', some e) →
      ∃ (s₀ : σ) (k : Nat), step s₀ = (s', some e) ∧ allApprove preds k e = false) ∧
    (∀ (σ : Type) (step : Step σ) (preds : List RetryPredicate)
        (fuel : Nat) (s s' : σ) (e : GoError),
      Retry step preds fuel s = some (s', some e) →
      ∃ (s₀ : σ), step s₀ = (s', some e)) ∧
    (∀ (n : Nat) (fuel : Nat), 1 ≤ n → n ≤ fuel →
      Retry alwaysFailCount [UpTo (n : Int)] fuel 0 =
        some ((n : Int), some (.base 7))) ∧
    Retry (FailUntilCount 3) [UpTo 5] 5 0 = some (3, none) := by
  refine ⟨?_, ?_, ?_, rfl⟩
  · intro σ step preds fuel attempts s s' e h
    exact retryLoop_error_from_step step preds fuel attempts s s' e h
  · intro σ step preds fuel s s' e h
    rw [Retry] at h
    obtain ⟨s₀, k, hstep, _⟩ := retryLoop_error_from_step step _ fuel 0 s s' e h
    exact ⟨s₀, hstep⟩
  · intro n fuel h1 hfuel
    show retryLoop alwaysFailCount [UpTo (n : Int)] fuel 0 0 = _
    have := upTo_alwaysFail_aux n 0 0 n fuel h1 (by omega) hfuel
    simpa using this

/--
Witness for C4 (amended): at `n = 2` the always-failing step executes
exactly twice and the returned error is the step's own error, obtained
from an actual invocation with `UpTo 2` disapproving.
-/
theorem retry_predicates_amended_witness :
    Retry alwaysFailCount [UpTo (2 : Int)] 2 0 = some (2, some (.base 7)) ∧
    (∃ (s₀ : Int) (k : Nat),
      alwaysFailCount s₀ = (2, some (.base 7)) ∧
        allApprove [UpTo (2 : Int)] k (.base 7) = false) := by
  constructor
  · exact retry_predicates_amended.2.2.1 2 2 (by omega) (by omega)
  · exact retry_predicates_amended.1 Int alwaysFailCount [UpTo (2 : Int)]
      2 0 0 2 (.base 7) (retry_predicates_amended.2.2.1 2 2 (by omega) (by omega))

/-- Counting instrumentation: run the same step while counting its
executions alongside the state. -/
def instrument (step : Step σ) : Step (σ × Nat) :=
  fun p =>
    let r := step p.1
    ((r.1, p.2 + 1), r.2)

theorem retryLoop_instr_counter_le (step : Step σ) (preds : List RetryPredicate) :
    ∀ (fuel attempts : Nat) (s : σ) (k : Nat) (res : (σ × Nat) × Option GoError),
      retryLoop (instrument step) preds fuel attempts (s, k) = some res →
      k ≤ res.1.2 := by
  intro fuel
  induction fuel with
  | zero => intro att s k res h; simp [retryLoop] at h
  | succ fuel ih =>
    intro att s k res h
    rw [retryLoop] at h
    simp only [instrument] at h
    cases he : (step s).2 with
    | none =>
      simp only [he, Option.some.injEq] at h
      subst h
      simp
    | some err =>
      simp only [he] at h
      by_cases hap : allApprove preds (att + 1) err = true
      · rw [if_pos hap] at h
        have := ih (att + 1) (step s).1 (k + 1) res h
        omega
      · rw [if_neg hap] at h
        simp only [Option.some.injEq] at h
        subst h
        simp

/--
Claim C10: `Retry` always invokes the wrapped step at least once, and no
predicate is consulted unless an attempt has failed — a successful first
attempt returns nil immediately, with a result independent of the
predicate list; moreover for every `n ≤ 1` (including zero and negative
`n`), `Retry(step, UpTo(n))` returns the first attempt's own outcome, so
on a failing step it executes exactly once — in particular the counting
always-failing step's counter ends at exactly 1.
-/
theorem retry_invokes_at_least_once :
    (∀ (σ : Type) (step : Step σ) (preds : List RetryPredicate) (fuel : Nat) (s : σ),
      (step s).2 = none →
      Retry step preds (fuel + 1) s = some ((step s).1, none)) ∧
    (∀ (σ : Type) (step : Step σ) (preds : List RetryPredicate)
        (fuel attempts : Nat) (s : σ) (k : Nat) (res : (σ × Nat) × Option GoError),
      retryLoop (instrument step) preds (fuel + 1) attempts (s, k) = some res →
      k + 1 ≤ res.1.2) ∧
    (∀ (σ : Type) (step : Step σ) (n : Int) (fuel : Nat) (s s' : σ) (e : GoError),
      n ≤ 1 → step s = (s', some e) →
      Retry step [UpTo n] (fuel + 1) s = some (s', some e)) ∧
    (∀ (n : Int) (fuel : Nat), n ≤ 1 →
      Retry alwaysFailCount [UpTo n] (fuel + 1) 0 = some (1, some (.base 7))) := by
  have hone : ∀ (σ : Type) (step : Step σ) (n : Int) (fuel : Nat) (s s' : σ) (e : GoError),
      n ≤ 1 → step s = (s', some e) →
      Retry step [UpTo n] (fuel + 1) s = some (s', some e) := by
    intro σ step n fuel s s' e hn hstep
    show retryLoop step [UpTo n] (fuel + 1) 0 s = _
    rw [retryLoop]
    have h2 : (step s).2 = some e := by rw [hstep]
    have h1 : (step s).1 = s' := by rw [hstep]
    have happ : allApprove [UpTo n] (0 + 1) e = false := by
      simp [allApprove, UpTo]
      omega
    simp only [h2, happ]
    simp [h1]
  refine ⟨?_, ?_, hone, ?_⟩
  · intro σ step preds fuel s hnone
    have : ∀ eff : List RetryPredicate,
        retryLoop step eff (fuel + 1) 0 s = some ((step s).1, none) := by
      intro eff
      rw [retryLoop]
      simp only [hnone]
    exact this _
  · intro σ step preds fuel att s k res h
    rw [retryLoop] at h
    simp only [instrument] at h
    cases he : (step s).2 with
    | none =>
      simp only [he, Option.some.injEq] at h
      subst h
      simp
    | some err =>
      simp only [he] at h
      by_cases hap : allApprove preds (att + 1) err = true
      · rw [if_pos hap] at h
        exact retryLoop_instr_counter_le step preds fuel (att + 1) (step s).1 (k + 1) res h
      · rw [if_neg hap] at h
        simp only [Option.some.injEq] at h
        subst h
        simp
  · intro n fuel hn
    exact hone Int alwaysFailCount n fuel 0 1 (.base 7) hn rfl

/--
Witness for C10: a succeeding step returns nil immediately under an
arbitrary predicate list; a failing step under `UpTo 0` and under
`UpTo (-1)` executes exactly once and returns its own error; the
instrumented counter of a one-shot run ends at 1.
-/
theorem retry_invokes_at_least_once_witness :
    Retry (incr 1) [UpTo 5] 1 0 = some (1, none) ∧
    Retry (failWith (.base 2)) [UpTo 0] 3 0 = some (0, some (.base 2)) ∧
    Retry alwaysFailCount [UpTo (-1)] 4 0 = some (1, some (.base 7)) ∧
    (0 : Nat) + 1 ≤ 1 := by
  refine ⟨?_, ?_, ?_, ?_⟩
  · exact retry_invokes_at_least_once.1 Int (incr 1) [UpTo 5] 0 0 rfl
  · exact retry_invokes_at_least_once.2.2.1 Int (failWith (.base 2)) 0 2 0 0 (.base 2)
      (by omega) rfl
  · exact retry_invokes_at_least_once.2.2.2 (-1) 3 (by omega)
  · exact retry_invokes_at_least_once.2.1 Int (incr 1) [] 0 0 0 0 ((1, 1), none) rfl

/-- Two's-complement wrap-around of Go `int64` arithmetic (`time.Duration`
is an `int64` of nanoseconds, and Go signed arithmetic wraps modulo 2^64). -/
def wrap64 (x : Int) : Int :=
  (x + 2 ^ 63) % 2 ^ 64 - 2 ^ 63

/--
The multiplier-2.0 fast path of `ExponentialBackoff`, up to the nominal
delay (before jitter and cap): clamp `attempts` below at 1, shift-clamp
at 62, compute `base * (1 << shift)` in wrapping `int64` arithmetic, and
fall back to `base` when the result is zero.  (`delay.Seconds() == 0` in
the source holds exactly when `delay == 0`: the nonzero nanosecond
remainder contributes at least 1e-9 to the float and the two summands
share a sign.)
-/
def expDelayPow2 (base attemptsIn : Int) : Int :=
  let attempts := if attemptsIn < 1 then 1 else attemptsIn
  let shift := min (attempts - 1).toNat 62
  let delay := wrap64 (base * 2 ^ shift)
  if delay = 0 then base else delay

/-- `flow.backoffConfig`: jitter flags, max-delay cap and exponential
multiplier.  The two float64 fields are modelled as rationals. -/
structure BackoffConfig where
  fullJitter : Bool
  percentJitter : Rat
  maxDelay : Int
  multiplier : Rat

/-- The random draws consumed by `applyJitter`, passed in explicitly:
`intDraw` models `rand.Int64N(delay+1)` (so lies in `[0, delay]`) and
`unitDraw` models `rand.Float64()` (so lies in `[0, 1)`). -/
structure JitterRand where
  intDraw : Int
  unitDraw : Rat

/-- Go's float-to-`time.Duration` conversion truncates toward zero. -/
def ratTrunc (q : Rat) : Int :=
  if 0 ≤ q then ⌊q⌋ else -⌊-q⌋

/-- `flow.applyJitter(delay, cfg)` with the random draws made explicit. -/
def applyJitter (delay : Int) (cfg : BackoffConfig) (r : JitterRand) : Int :=
  if cfg.fullJitter then
    if delay ≤ 0 then 0
    else r.intDraw
  else if 0 < cfg.percentJitter then
    if delay ≤ 0 then 0
    else
      let jitterRange : Rat := (delay : Rat) * cfg.percentJitter
      let jitterAmount : Rat := r.unitDraw * 2 * jitterRange - jitterRange
      let result : Rat := (delay : Rat) + jitterAmount
      if result < 0 then 0 else ratTrunc result
  else delay

/-- The max-delay cap applied after jitter in both backoff predicates:
`if cfg.maxDelay > 0 && delay > cfg.maxDelay { delay = cfg.maxDelay }`. -/
def capDelay (maxDelay d : Int) : Int :=
  if 0 < maxDelay ∧ maxDelay < d then maxDelay else d

/-- The wait duration `FixedBackoff`'s predicate hands to its timer. -/
def fixedBackoffDelay (delay : Int) (cfg : BackoffConfig) (r : JitterRand) : Int :=
  capDelay cfg.maxDelay (applyJitter delay cfg r)

/-- The overflow ceiling `time.Hour * 24 * 365` in nanoseconds. -/
def oneYear : Int :=
  3600 * 1000000000 * 24 * 365

/--
The custom-multiplier loop of `ExponentialBackoff`
(`for i := 1; i < attempts; i++`): repeatedly multiply in real arithmetic
and truncate back to a duration; a zero or negative intermediate result
is replaced by the one-year ceiling and the loop stops.  (The float64
products are modelled exactly by rationals; a float-to-int64 conversion
overflow is implementation-defined in Go and is outside this model.)
-/
def expCustomLoop (multiplier : Rat) : Nat → Int → Int
  | 0, base => base
  | n + 1, base =>
    let b := ratTrunc ((base : Rat) * multiplier)
    if b = 0 ∨ b < 0 then oneYear
    else expCustomLoop multiplier n b

/-- The wait duration `ExponentialBackoff`'s predicate hands to its
timer: nominal delay (fast path for multiplier 2.0, loop otherwise),
then jitter, then the cap. -/
def expBackoffDelay (base : Int) (cfg : BackoffConfig) (attemptsIn : Int)
    (r : JitterRand) : Int :=
  let attempts := if attemptsIn < 1 then 1 else attemptsIn
  let delay :=
    if cfg.multiplier = 2 then expDelayPow2 base attempts
    else expCustomLoop cfg.multiplier (attempts - 1).toNat base
  capDelay cfg.maxDelay (applyJitter delay cfg r)

/--
Claim C5, evaluated at the failing input (code bug): the nominal delay of
`ExponentialBackoff` is `base * 2^(N-1)` and attempts below 1 are clamped
to 1 (first five conjuncts, including the 50ms/attempt-128 case where the
wrapped product happens to be exactly 0 and the base fallback fires), but
for `base = 3ns, attempts = 63` the product overflows to the nonzero
value `-4611686018427387904`, so the fallback promised by the claim and
by the function's own doc comment does not fire and the computed delay is
negative rather than `base`.
-/
theorem expBackoff_overflow_divergence :
    expDelayPow2 100 1 = 100 ∧ expDelayPow2 100 2 = 200 ∧ expDelayPow2 100 3 = 400 ∧
    expDelayPow2 100 0 = 100 ∧ expDelayPow2 100 (-5) = 100 ∧
    expDelayPow2 50000000 128 = 50000000 ∧
    expDelayPow2 3 63 = -4611686018427387904 ∧ expDelayPow2 3 63 < 0 := by
  refine ⟨by decide, by decide, by decide, by decide, by decide, ?_, ?_, by decide⟩
  · decide
  · decide

/--
Counterexample to claim C6 as stated: the final wait duration is not
always nonnegative.  With no jitter configured, `FixedBackoff(-1ns)`
passes `-1` through unclamped, and even with a positive base,
`ExponentialBackoff(3ns)` at attempt 63 computes a negative final wait
(the wrapped overflow of the nominal delay survives jitter and cap).
-/
theorem backoff_negative_counterexample :
    fixedBackoffDelay (-1) ⟨false, 0, 0, 2⟩ ⟨0, 0⟩ = -1 ∧
    expBackoffDelay 3 ⟨false, 0, 0, 2⟩ 63 ⟨0, 0⟩ = -4611686018427387904 ∧
    fixedBackoffDelay (-1) ⟨false, 0, 0, 2⟩ ⟨0, 0⟩ < 0 := by
  refine ⟨by decide, by decide, by decide⟩

/-- The hypothesis under which the claim's clamping does happen: some
jitter is configured, and the full-jitter draw is (as `rand.Int64N`
guarantees) nonnegative. -/
def jitterConfigured (cfg : BackoffConfig) (r : JitterRand) : Prop :=
  (cfg.fullJitter = true ∧ 0 ≤ r.intDraw) ∨
    (cfg.fullJitter = false ∧ 0 < cfg.percentJitter)

theorem ratTrunc_nonneg (q : Rat) (h : 0 ≤ q) : 0 ≤ ratTrunc q := by
  rw [ratTrunc, if_pos h]
  exact Int.le_floor.mpr (by exact_mod_cast h)

theorem applyJitter_nonneg (d : Int) (cfg : BackoffConfig) (r : JitterRand)
    (h : jitterConfigured cfg r) : 0 ≤ applyJitter d cfg r := by
  rcases h with ⟨hfj, hdraw⟩ | ⟨hfj, hpj⟩
  · rw [applyJitter, if_pos hfj]
    by_cases hd : d ≤ 0
    · rw [if_pos hd]
    · rw [if_neg hd]
      exact hdraw
  · rw [applyJitter, hfj]
    simp only [Bool.false_eq_true, if_false, if_pos hpj]
    by_cases hd : d ≤ 0
    · rw [if_pos hd]
    · rw [if_neg hd]
      by_cases hres : (d : Rat) + (r.unitDraw * 2 * ((d : Rat) * cfg.percentJitter) -
          (d : Rat) * cfg.percentJitter) < 0
      · rw [if_pos hres]
      · rw [if_neg hres]
        exact ratTrunc_nonneg _ (by linarith [not_lt.mp hres])

theorem capDelay_nonneg (m d : Int) (h : 0 ≤ d) : 0 ≤ capDelay m d := by
  rw [capDelay]
  by_cases hc : 0 < m ∧ m < d
  · rw [if_pos hc]
    omega
  · rw [if_neg hc]
    exact h

theorem expCustomLoop_pos (m : Rat) :
    ∀ (n : Nat) (b : Int), 0 < b → 0 < expCustomLoop m n b := by
  intro n
  induction n with
  | zero => intro b hb; exact hb
  | succ n ih =>
    intro b hb
    rw [expCustomLoop]
    by_cases hz : ratTrunc ((b : Rat) * m) = 0 ∨ ratTrunc ((b : Rat) * m) < 0
    · rw [if_pos hz]
      decide
    · rw [if_neg hz]
      push_neg at hz
      exact ih _ (by omega)

/--
Claim C6 (amended): the claim's universal nonnegativity holds only when
jitter is configured — whenever full jitter (with its nonnegative draw)
or percentage jitter is active, the post-jitter delay is clamped to be
nonnegative, and so are the final waits of both `FixedBackoff` and
`ExponentialBackoff`; the max-delay cap maps a nonnegative delay to a
nonnegative delay; and in the custom-multiplier path the repeated
exponentiation of a positive base never produces a nonpositive delay — a
degenerate (zero or negative) intermediate value is replaced by the fixed
one-year ceiling.  Without jitter, a negative delay passes through
unclamped (see the counterexample).
-/
theorem backoff_clamping_amended :
    (∀ (d : Int) (cfg : BackoffConfig) (r : JitterRand),
      jitterConfigured cfg r → 0 ≤ applyJitter d cfg r) ∧
    (∀ (d : Int) (cfg : BackoffConfig) (r : JitterRand),
      jitterConfigured cfg r → 0 ≤ fixedBackoffDelay d cfg r) ∧
    (∀ (b : Int) (cfg : BackoffConfig) (a : Int) (r : JitterRand),
      jitterConfigured cfg r → 0 ≤ expBackoffDelay b cfg a r) ∧
    (∀ (m d : Int), 0 ≤ d → 0 ≤ capDelay m d) ∧
    (∀ (m : Rat) (n : Nat) (b : Int), 0 < b → 0 < expCustomLoop m n b) ∧
    (∀ (m : Rat) (n : Nat) (b : Int), ratTrunc ((b : Rat) * m) ≤ 0 →
      expCustomLoop m (n + 1) b = oneYear) := by
  refine ⟨applyJitter_nonneg, ?_, ?_, capDelay_nonneg, expCustomLoop_pos, ?_⟩
  · intro d cfg r h
    exact capDelay_nonneg _ _ (applyJitter_nonneg d cfg r h)
  · intro b cfg a r h
    exact capDelay_nonneg _ _ (applyJitter_nonneg _ cfg r h)
  · intro m n b h
    rw [expCustomLoop]
    rw [if_pos (by omega)]

/--
Witness for C6 (amended): concrete nonnegative waits under full jitter
with draw 37 and under 20% percentage jitter; the cap applied to a
nonnegative delay; positivity of the custom loop from a positive base;
and the one-year ceiling for a negative multiplier.
-/
theorem backoff_clamping_amended_witness :
    0 ≤ applyJitter 100 ⟨true, 0, 0, 2⟩ ⟨37, 0⟩ ∧
    0 ≤ fixedBackoffDelay (-5) ⟨false, 1 / 5, 1000, 2⟩ ⟨0, 1 / 2⟩ ∧
    0 ≤ expBackoffDelay 100 ⟨true, 0, 500, 2⟩ 4 ⟨37, 0⟩ ∧
    0 ≤ capDelay 50 30 ∧
    0 < expCustomLoop 3 4 100 ∧
    expCustomLoop 0 3 100 = oneYear := by
  refine ⟨?_, ?_, ?_, ?_, ?_, ?_⟩
  · exact backoff_clamping_amended.1 100 ⟨true, 0, 0, 2⟩ ⟨37, 0⟩ (Or.inl ⟨rfl, by decide⟩)
  · exact backoff_clamping_amended.2.1 (-5) ⟨false, 1 / 5, 1000, 2⟩ ⟨0, 1 / 2⟩
      (Or.inr ⟨rfl, by norm_num⟩)
  · exact backoff_clamping_amended.2.2.1 100 ⟨true, 0, 500, 2⟩ 4 ⟨37, 0⟩
      (Or.inl ⟨rfl, by decide⟩)
  · exact backoff_clamping_amended.2.2.2.1 50 30 (by omega)
  · exact backoff_clamping_amended.2.2.2.2.1 3 4 100 (by omega)
  · exact backoff_clamping_amended.2.2.2.2.2 0 2 100 (by simp [ratTrunc])

/-- `flow.Extract[T, U] = func(context.Context, T) (U, error)`: may mutate
the state (typically a pointer in Go) and yields a value or an error. -/
def Extract (σ U : Type) : Type := σ → σ × U × Option GoError

/-- The cancellation state of the context: what `ctx.Err()` returns before
the `i`-th producer invocation (`none` = not cancelled yet). -/
def CancelTrace : Type := Nat → Option GoError

/--
The loop of `flow.Collect`: before each invocation check `ctx.Err()` and
abort with it unwrapped; invoke the producer; an `errors.Is`-match with
`ErrExhausted` ends collection successfully with the accumulated slice;
any other error aborts with an `IndexedError` carrying the zero-based
attempt index; a success appends the item and continues.  `fuel` bounds
Go's unbounded loop (`none` = fuel exhausted).
-/
def collectLoop (ctxErr : CancelTrace) (f : Extract σ U) :
    Nat → Nat → σ → List U → Option (σ × List U × Option GoError)
  | 0, _, _, _ => none
  | fuel + 1, i, s, collected =>
    match ctxErr i with
    | some e => some (s, [], some e)
    | none =>
      let r := f s
      match r.2.2 with
      | some err =>
        if errIs err .exhausted then some (r.1, collected, none)
        else some (r.1, [], some (.indexed (i : Int) err))
      | none => collectLoop ctxErr f fuel (i + 1) r.1 (collected ++ [r.2.1])

/-- `flow.Collect(f)` run against a context with cancellation state
`ctxErr`. -/
def Collect (ctxErr : CancelTrace) (f : Extract σ U) (fuel : Nat) (s : σ) :
    Option (σ × List U × Option GoError) :=
  collectLoop ctxErr f fuel 0 s []

/-- A context that is never cancelled. -/
def ctxNone : CancelTrace := fun _ => none

/-- The doc example `NextQueueItem`: pop from a queue held in the state,
returning `ErrExhausted` once it is empty. -/
def nextQueueItem : Extract (List Int) Int :=
  fun s =>
    match s with
    | [] => ([], 0, some .exhausted)
    | x :: rest => (rest, x, none)

theorem collect_queue_aux :
    ∀ (xs : List Int) (fuel i : Nat) (acc : List Int),
      xs.length < fuel →
      collectLoop ctxNone nextQueueItem fuel i xs acc = some ([], acc ++ xs, none) := by
  intro xs
  induction xs with
  | nil =>
    intro fuel i acc hfuel
    obtain ⟨f, rfl⟩ : ∃ f, fuel = f + 1 := ⟨fuel - 1, by omega⟩
    rw [collectLoop]
    simp [ctxNone, nextQueueItem, errIs_refl]
  | cons x rest ih =>
    intro fuel i acc hfuel
    obtain ⟨f, rfl⟩ : ∃ f, fuel = f + 1 := ⟨fuel - 1, by omega⟩
    rw [collectLoop]
    show (match ctxNone i with
      | some e => some ((x :: rest : List Int), ([] : List Int), some e)
      | none =>
        match (nextQueueItem (x :: rest)).2.2 with
        | some err =>
          if errIs err .exhausted then some ((nextQueueItem (x :: rest)).1, acc, none)
          else some ((nextQueueItem (x :: rest)).1, ([] : List Int),
            some (.indexed (i : Int) err))
        | none => collectLoop ctxNone nextQueueItem f (i + 1)
            (nextQueueItem (x :: rest)).1 (acc ++ [(nextQueueItem (x :: rest)).2.1])) = _
    simp only [ctxNone, nextQueueItem]
    rw [ih f (i + 1) (acc ++ [x]) (by simpa using hfuel)]
    simp

/--
Claim C7: `Collect` checks cancellation before each invocation and aborts
immediately with the cancellation error unwrapped; a producer error that
`errors.Is`-matches `ErrExhausted` at attempt `i` stops collection and
returns the accumulated sequence with nil error; any other error at
zero-based attempt `i` aborts with an `IndexedError` of index `i` that
unwraps (via `errors.Is`) to the original cause; a successful invocation
accumulates its item and continues; and collecting from a queue-backed
producer returns exactly the queue's contents.
-/
theorem collect_contract :
    (∀ (σ U : Type) (ctxErr : CancelTrace) (f : Extract σ U)
        (fuel i : Nat) (s : σ) (acc : List U) (e : GoError),
      ctxErr i = some e →
      collectLoop ctxErr f (fuel + 1) i s acc = some (s, [], some e)) ∧
    (∀ (σ U : Type) (ctxErr : CancelTrace) (f : Extract σ U)
        (fuel i : Nat) (s : σ) (acc : List U) (err : GoError),
      ctxErr i = none → (f s).2.2 = some err → errIs err .exhausted = false →
      collectLoop ctxErr f (fuel + 1) i s acc =
          some ((f s).1, [], some (.indexed (i : Int) err)) ∧
        errIs (.indexed (i : Int) err) err = true) ∧
    (∀ (σ U : Type) (ctxErr : CancelTrace) (f : Extract σ U)
        (fuel i : Nat) (s : σ) (acc : List U) (err : GoError),
      ctxErr i = none → (f s).2.2 = some err → errIs err .exhausted = true →
      collectLoop ctxErr f (fuel + 1) i s acc = some ((f s).1, acc, none)) ∧
    (∀ (σ U : Type) (ctxErr : CancelTrace) (f : Extract σ U)
        (fuel i : Nat) (s : σ) (acc : List U),
      ctxErr i = none → (f s).2.2 = none →
      collectLoop ctxErr f (fuel + 1) i s acc =
        collectLoop ctxErr f fuel (i + 1) (f s).1 (acc ++ [(f s).2.1])) ∧
    (∀ (xs : List Int) (fuel : Nat), xs.length < fuel →
      Collect ctxNone nextQueueItem fuel xs = some ([], xs, none)) := by
  refine ⟨?_, ?_, ?_, ?_, ?_⟩
  · intro σ U ctxErr f fuel i s acc e hc
    rw [collectLoop, hc]
  · intro σ U ctxErr f fuel i s acc err hc hf hex
    constructor
    · rw [collectLoop, hc]
      simp only [hf, hex]
      simp
    · rw [errIs]
      simp [errIs_refl]
  · intro σ U ctxErr f fuel i s acc err hc hf hex
    rw [collectLoop, hc]
    simp only [hf, hex]
    simp
  · intro σ U ctxErr f fuel i s acc hc hf
    rw [collectLoop, hc]
    simp only [hf]
  · intro xs fuel hfuel
    rw [Collect, collect_queue_aux xs fuel 0 [] hfuel]
    simp

/--
Witness for C7: cancellation before attempt 0 returns the cancellation
error unwrapped with the queue untouched; a non-exhausted failure at
attempt 2 is wrapped in `IndexedError{Index: 2}` and still
`errors.Is`-matches the cause; an exhausted-matching failure returns the
accumulated items; and collecting `[1, 2, 3]` yields `[1, 2, 3]`.
-/
theorem collect_contract_witness :
    collectLoop (fun _ => some .canceled) nextQueueItem 3 0 [1, 2] [] =
      some ([1, 2], [], some .canceled) ∧
    (collectLoop ctxNone (fun s : Int × Unit => (s, (0 : Int), some (.base 5))) 4 2 (0, ()) [7] =
      some ((0, ()), [], some (.indexed 2 (.base 5))) ∧
      errIs (.indexed 2 (.base 5)) (.base 5) = true) ∧
    collectLoop ctxNone nextQueueItem 4 2 [] [1, 2] = some ([], [1, 2], none) ∧
    Collect ctxNone nextQueueItem 4 [1, 2, 3] = some ([], [1, 2, 3], none) := by
  refine ⟨?_, ?_, ?_, ?_⟩
  · exact collect_contract.1 (List Int) Int (fun _ => some .canceled) nextQueueItem
      2 0 [1, 2] [] .canceled rfl
  · exact collect_contract.2.1 (Int × Unit) Int ctxNone
      (fun s : Int × Unit => (s, (0 : Int), some (.base 5))) 3 2 (0, ()) [7] (.base 5)
      rfl rfl (by simp [errIs, geq])
  · exact collect_contract.2.2.1 (List Int) Int ctxNone nextQueueItem
      3 2 [] [1, 2] .exhausted rfl rfl (errIs_refl _)
  · exact collect_contract.2.2.2.2 [1, 2, 3] 4 (by simp)

/-- `flow.TraceEvent`, with `time.Time` modelled as an integer instant:
the zero `time.Time` (`IsZero`) is `0` and `Before` is `<`; durations are
`int64` nanosecond counts. -/
structure TraceEvent where
  names : List String
  start : Int
  duration : Int
  error : String
deriving DecidableEq, Repr

/-- `flow.Trace` (aggregate fields are Go `int`s). -/
structure Trace where
  events : List TraceEvent
  start : Int
  duration : Int
  totalSteps : Int
  totalErrors : Int
deriving DecidableEq, Repr

/-- `flow.TraceFilter`. -/
def TraceFilter : Type := TraceEvent → Bool

/-- The inner AND-loop of `Trace.Filter`/`Trace.FindEvent`: all filters
must match, stopping at the first mismatch. -/
def matchesAll : List TraceFilter → TraceEvent → Bool
  | [], _ => true
  | f :: rest, e => if f e then matchesAll rest e else false

/--
The accumulator loop of `Trace.Filter`: for each matching event, append
it, add its duration, count its error, and track the earliest start —
where a tracked value equal to the zero time counts as unset
(`earliestStart.IsZero() || event.Start.Before(earliestStart)`).
Accumulator order: (filtered, errorCount, totalDuration, earliestStart).
-/
def filterLoop (filters : List TraceFilter) :
    List TraceEvent → List TraceEvent × Int × Int × Int →
      List TraceEvent × Int × Int × Int
  | [], acc => acc
  | event :: rest, (filtered, errorCount, totalDuration, earliestStart) =>
    if matchesAll filters event then
      filterLoop filters rest
        (filtered ++ [event],
          (if event.error ≠ "" then errorCount + 1 else errorCount),
          totalDuration + event.duration,
          if earliestStart = 0 ∨ event.start < earliestStart then event.start
          else earliestStart)
    else
      filterLoop filters rest (filtered, errorCount, totalDuration, earliestStart)

/-- `flow.Trace.Filter(filters...)`: recompute events and aggregates from
the matching subset; fall back to the original trace's start time when
the tracked earliest start is (still) the zero time. -/
def Trace.Filter (t : Trace) (filters : List TraceFilter) : Trace :=
  let r := filterLoop filters t.events ([], 0, 0, 0)
  let startTime := if r.2.2.2 ≠ 0 then r.2.2.2 else t.start
  { events := r.1
    start := startTime
    duration := r.2.2.1
    totalSteps := (r.1.length : Int)
    totalErrors := r.2.1 }

/--
Claim C8, evaluated at the failing input (code bug): for a trace whose
first event starts at the zero time (`time.Time{}`) and whose second
starts 5ns later, filtering with no predicates keeps both events and
recomputes steps, errors and duration correctly — but `Start` comes out
as 5, not the earliest filtered start 0 promised by the claim and by
`Filter`'s doc comment, because the loop treats a tracked zero start as
"unset" and lets the later event overwrite it.
-/
theorem trace_filter_zero_start_divergence :
    Trace.Filter ⟨[⟨["a"], 0, 1, ""⟩, ⟨["b"], 5, 2, "boom"⟩], 100, 3, 2, 1⟩ [] =
      ⟨[⟨["a"], 0, 1, ""⟩, ⟨["b"], 5, 2, "boom"⟩], 5, 3, 2, 1⟩ ∧
    (Trace.Filter ⟨[⟨["a"], 0, 1, ""⟩, ⟨["b"], 5, 2, "boom"⟩], 100, 3, 2, 1⟩ []).start = 5 ∧
    ((5 : Int) = 0 ∨ (5 : Int) < 0) = False := by
  refine ⟨by decide, by decide, by simp⟩

/-- A slice heap: Go string-slice backing arrays addressed by id, for the
aliasing behavior of the name-stack accessors. -/
abbrev SHeap : Type := List (List String)

/-- Read the contents behind a slice id (out of range reads as empty). -/
def hread (h : SHeap) (id : Nat) : List String :=
  (List.get? h id).getD []

/-- Allocate a fresh backing array, returning the new heap and its id. -/
def halloc (h : SHeap) (v : List String) : SHeap × Nat :=
  (h ++ [v], h.length)

/-- Overwrite the contents behind a slice id (a caller mutating a slice
it was handed). -/
def hwrite (h : SHeap) (id : Nat) (v : List String) : SHeap :=
  h.set id v

/-- The name-stack part of `flowCtx`: `names` is a Go slice — `none` for
the nil slice, otherwise a heap id.  (The trace and logger fields are
carried unchanged by `newFlowCtx` and no trace is installed in the runs
below, so they are omitted.) -/
structure FlowCtx where
  names : Option Nat

/-- The contents of the carrier's name stack (nil slice and missing
carrier both read as empty). -/
def ctxNames (h : SHeap) (ctx : Option FlowCtx) : List String :=
  match ctx with
  | none => []
  | some f =>
    match f.names with
    | none => []
    | some id => hread h id

/--
`flow.Names(ctx)`: nil when there is no carrier or the stack is empty,
otherwise a freshly allocated copy (`append([]string{}, f.names...)`) of
the carrier's array — the returned id is new, never the carrier's own.
-/
def Names (h : SHeap) (ctx : Option FlowCtx) : SHeap × Option Nat :=
  match ctx with
  | none => (h, none)
  | some f =>
    match f.names with
    | none => (h, none)
    | some id =>
      if (hread h id).length = 0 then (h, none)
      else
        let r := halloc h (hread h id)
        (r.1, some r.2)

/-- `flow.addName(ctx, name)`: build the child carrier whose stack is a
freshly allocated copy of the parent's with `name` appended. -/
def addName (h : SHeap) (ctx : Option FlowCtx) (name : String) :
    SHeap × FlowCtx × Nat :=
  let r := halloc h (ctxNames h ctx ++ [name])
  (r.1, ⟨some r.2⟩, r.2)

/-- A step in the heap-and-carrier model. -/
def NamedStep (σ : Type) : Type :=
  Option FlowCtx → SHeap → σ → SHeap × σ × Option GoError

/-- `flow.Named(name, step)` (no trace installed): extend the name stack
via `addName`, run the step under the child carrier, and wrap a failure
in `NamedError{Name: name}`. -/
def Named (name : String) (step : NamedStep σ) : NamedStep σ :=
  fun ctx h s =>
    let a := addName h ctx name
    let r := step (some a.2.1) a.1 s
    match r.2.2 with
    | some err => (r.1, r.2.1, some (.named name err))
    | none => (r.1, r.2.1, none)

/-- The probe: read the name path, mutate the returned slice in place,
read the path again, and record both observations in the state. -/
def probeStep : NamedStep (List String × List String) :=
  fun ctx h _ =>
    let n1 := Names h ctx
    let v1 := match n1.2 with | some id => hread n1.1 id | none => []
    let h2 := match n1.2 with | some id => hwrite n1.1 id ["mutated"] | none => n1.1
    let n2 := Names h2 ctx
    let v2 := match n2.2 with | some id => hread n2.1 id | none => []
    (n2.1, (v1, v2), none)

theorem hread_append (h : SHeap) :
    ∀ (h2 : SHeap) (i : Nat), i < h.length → hread (h ++ h2) i = hread h i := by
  induction h with
  | nil => intro h2 i hi; simp at hi
  | cons x rest ih =>
    intro h2 i hi
    cases i with
    | zero => rfl
    | succ i' =>
      show hread (rest ++ h2) i' = hread rest i'
      exact ih h2 i' (by simpa using hi)

theorem hread_alloc_last (h : SHeap) (v : List String) :
    hread (h ++ [v]) h.length = v := by
  induction h with
  | nil => rfl
  | cons x rest ih => exact ih

theorem hread_set_ne (v : List String) (h : SHeap) :
    ∀ (j i : Nat), i ≠ j → hread (hwrite h j v) i = hread h i := by
  induction h with
  | nil => intro j i hij; simp [hwrite, hread]
  | cons x rest ih =>
    intro j i hij
    cases j with
    | zero =>
      cases i with
      | zero => omega
      | succ i' => rfl
    | succ j' =>
      cases i with
      | zero => rfl
      | succ i' => exact ih j' i' (by omega)

theorem hread_lt_of_ne_nil (h : SHeap) (id : Nat) (hne : hread h id ≠ []) :
    id < h.length := by
  by_contra hge
  push_neg at hge
  rw [hread, List.get?_eq_none.mpr hge] at hne
  simp at hne

theorem named_nest_probe (ns : List String) :
    ∀ (ctx : Option FlowCtx) (h : SHeap) (s : List String × List String),
      ((ns.foldr Named probeStep) ctx h s).2.1 =
        (ctxNames h ctx ++ ns, ctxNames h ctx ++ ns) := by
  induction ns with
  | nil =>
    intro ctx h s
    show (probeStep ctx h s).2.1 = _
    match ctx with
    | none => rfl
    | some ⟨none⟩ => rfl
    | some ⟨some id⟩ =>
      by_cases hemp : hread h id = []
      · show (probeStep (some ⟨some id⟩) h s).2.1 = _
        rw [probeStep]
        simp only [Names, hemp]
        simp [ctxNames, hemp]
      · have hlen : ¬ (hread h id).length = 0 := by
          simpa [List.length_eq_zero] using hemp
        have hlt : id < h.length := hread_lt_of_ne_nil h id hemp
        rw [probeStep]
        simp only [Names, if_neg hlen, halloc]
        have h1 : hread (h ++ [hread h id]) h.length = hread h id :=
          hread_alloc_last h (hread h id)
        have hne : id ≠ h.length := by omega
        have h2 : hread (hwrite (h ++ [hread h id]) h.length ["mutated"]) id =
            hread (h ++ [hread h id]) id :=
          hread_set_ne _ _ _ _ hne
        have h3 : hread (h ++ [hread h id]) id = hread h id :=
          hread_append h _ id hlt
        have h4 : hread (hwrite (h ++ [hread h id]) h.length ["mutated"]) id ≠ [] := by
          rw [h2, h3]; exact hemp
        have h4len : ¬ (hread (hwrite (h ++ [hread h id]) h.length ["mutated"]) id).length
            = 0 := by
          simpa [List.length_eq_zero] using h4
        simp only [if_neg h4len, halloc]
        rw [h1]
        rw [hread_alloc_last]
        rw [h2, h3]
        simp [ctxNames]
  | cons a rest ih =>
    intro ctx h s
    show (Named a (rest.foldr Named probeStep) ctx h s).2.1 = _
    rw [Named]
    simp only [addName, halloc]
    have hinner := ih (some ⟨some h.length⟩) (h ++ [ctxNames h ctx ++ [a]]) s
    have hcn : ctxNames (h ++ [ctxNames h ctx ++ [a]]) (some ⟨some h.length⟩) =
        ctxNames h ctx ++ [a] := by
      simp only [ctxNames]
      exact hread_alloc_last h _
    rw [hcn] at hinner
    cases he : ((rest.foldr Named probeStep) (some ⟨some h.length⟩)
        (h ++ [ctxNames h ctx ++ [a]]) s).2.2 with
    | none =>
      simp only [he, hinner]
      simp
    | some err =>
      simp only [he, hinner]
      simp

/--
Claim C9: inside the innermost step of a nest of `Named` wrappers, the
name path observed via `Names` is exactly the enclosing names
outermost-first — even when the probe mutates the slice returned by the
first read before reading again, the second read yields the same path,
because both `Names` and `addName` hand out freshly allocated copies of
the carrier's array.  In particular the triple nest observes
`["outer", "middle", "inner"]` twice.
-/
theorem named_nesting_path :
    (∀ (ns : List String) (s : List String × List String),
      ((ns.foldr Named probeStep) none [] s).2.1 = (ns, ns)) ∧
    ((["outer", "middle", "inner"].foldr Named probeStep) none [] ([], [])).2.1 =
      (["outer", "middle", "inner"], ["outer", "middle", "inner"]) := by
  have hgen : ∀ (ns : List String) (s : List String × List String),
      ((ns.foldr Named probeStep) none [] s).2.1 = (ns, ns) := by
    intro ns s
    have := named_nest_probe ns none [] s
    simpa [ctxNames] using this
  exact ⟨hgen, hgen ["outer", "middle", "inner"] ([], [])⟩

end Flow
